/-
Verification of the RAG retrieval core of the TEAM-60 repository
(src/rag/ingest.py, src/rag/vector_store.py, src/rag/retriever.py and the
relevant constants of src/config/settings.py).

Shallow embedding conventions:
* Python dicts used as records become Lean structures with `Option` fields
  (`dict.get` with a missing key yields `none`).
* NumPy / FAISS float vectors become integer vectors (`List Int`); FAISS
  `IndexFlatL2` distances become exact squared Euclidean distances over `Int`.
  The sentence-transformer model is an opaque external capability and is
  passed explicitly as a function `Embed : String -> List Int`.
* The filesystem is a function from path strings to optional file contents;
  `faiss.write_index` / `pickle.dump` store the exact data, and reading a file
  whose content is not of the expected kind models a deserialization failure.
* Python exceptions become `Except` results carrying the message raised by the
  source; mutation of `self` becomes explicit state passing on `Store`.
* Python truthiness (`x or default`, `if unit_filter:`) is modelled by
  explicit helper functions (`pyOrNat`, `pyOrStr`, `pyTruthy`).
* The `score` key added by `RAGVectorStore.search` is `1.0 / (1.0 + distance)`,
  a function of the stored distance alone; results therefore carry only the
  chunk and the distance, which determine the score.
-/
import Mathlib

namespace RAG

/-! ## Python-semantics helpers -/

/-- Python `x or default` for an optional integer argument: `None` and `0` are
falsy and fall back to the default (`chunk_size = chunk_size or CHUNK_SIZE`). -/
def pyOrNat (x : Option Nat) (d : Nat) : Nat :=
  match x with
  | none => d
  | some n => if n = 0 then d else n

/-- Python `x or default` for an optional string argument: `None` and `""` are
falsy and fall back to the default. -/
def pyOrStr (x : Option String) (d : String) : String :=
  match x with
  | none => d
  | some s => if s = "" then d else s

/-- Python truthiness of an optional string (`if unit_filter:`). -/
def pyTruthy (x : Option String) : Bool :=
  match x with
  | none => false
  | some s => decide (s ≠ "")

/-- Python `d.get(key, "")`: a missing value becomes the empty string. -/
def pyGetStr (x : Option String) : String := x.getD ""

/-- Auxiliary recursion for Python `str.split()`: scan the characters, cutting
at whitespace runs and dropping empty pieces; `acc` holds the reversed current
word. -/
def splitWordsAux : List Char → List Char → List String
  | [], [] => []
  | [], a :: as => [String.mk ((a :: as).reverse)]
  | c :: cs, acc =>
    if c.isWhitespace then
      match acc with
      | [] => splitWordsAux cs []
      | a :: as => String.mk ((a :: as).reverse) :: splitWordsAux cs []
    else splitWordsAux cs (c :: acc)

/-- Python `text.split()` (no separator argument): split on whitespace runs,
no empty words. -/
def pySplit (s : String) : List String := splitWordsAux s.data []

/-- Python `" ".join(ws)`. -/
def pyJoin (sep : String) : List String → String
  | [] => ""
  | [x] => x
  | x :: y :: xs => x ++ sep ++ pyJoin sep (y :: xs)

/-- Python list slicing `xs[a:b]` (step 1): negative bounds count from the
end, then both bounds are clamped to `[0, len]`. -/
def pySlice {α : Type} (xs : List α) (a b : Int) : List α :=
  let n : Int := xs.length
  let a2 : Nat := (if a < 0 then max (n + a) 0 else min a n).toNat
  let b2 : Nat := (if b < 0 then max (n + b) 0 else min b n).toNat
  (xs.take b2).drop a2

/-- Python truthiness of `s.strip()` (used as `if chunk_text.strip():`):
true iff the string contains a non-whitespace character. -/
def pyStripTruthy (s : String) : Bool := s.data.any (fun c => !c.isWhitespace)

/-! ## Configuration constants (src/config/settings.py) -/

def CHUNK_SIZE : Nat := 500

def CHUNK_OVERLAP : Nat := 50

def TOP_K : Nat := 3

def RAG_INDEX_PATH : String := "rag_index.faiss"

def RAG_CHUNKS_PATH : String := "chunks.pkl"

/-! ## Chunker (src/rag/ingest.py, chunk_text) -/

/-- One element of the list returned by `chunk_text`: a dict with keys
`text`, `start_word`, `end_word`. -/
structure RawChunk where
  text : String
  start_word : Int
  end_word : Int
deriving Repr, DecidableEq

/-- The body of one `chunk_text` loop iteration up to the `start` update:
slice the word window `words[start : start + chunk_size]`, join it with
single spaces, and append the chunk dict when the joined text's `strip()` is
truthy (`end_word` is `min(end, len(words))`). -/
def chunkAppend (words : List String) (chunk_size : Nat) (start : Int)
    (acc : List RawChunk) : List RawChunk :=
  if pyStripTruthy (pyJoin " " (pySlice words start (start + (chunk_size : Int)))) then
    acc ++ [{ text := pyJoin " " (pySlice words start (start + (chunk_size : Int))),
              start_word := start,
              end_word := min (start + (chunk_size : Int)) (words.length : Int) }]
  else acc

/-- The `while start < len(words)` loop of `chunk_text`, with explicit fuel:
`none` means the fuel ran out before the loop exited (the Python loop is
still running).  `start` is an `Int` because with `overlap > chunk_size` the
Python variable goes negative.  Loop body, in source order: build and append
the window chunk, advance `start` by `chunk_size - overlap`, and `break` once
`start >= len(words)`. -/
def chunkLoop (words : List String) (chunk_size overlap : Nat) :
    Nat → Int → List RawChunk → Option (List RawChunk)
  | 0, _, _ => none
  | fuel + 1, start, acc =>
    if start < (words.length : Int) then
      if start + (chunk_size : Int) - (overlap : Int) ≥ (words.length : Int) then
        some (chunkAppend words chunk_size start acc)
      else chunkLoop words chunk_size overlap fuel
        (start + (chunk_size : Int) - (overlap : Int))
        (chunkAppend words chunk_size start acc)
    else some acc

/-- `chunk_text(text, chunk_size, overlap)`: parameter defaulting is Python
`or` (so an explicit `0` also falls back to the configured default), then the
word-window loop.  Fuel `len(words) + 1` is sufficient whenever the step is
positive (proved below); `none` reports a non-terminating call. -/
def chunk_text (text : String) (chunk_size overlap : Option Nat) :
    Option (List RawChunk) :=
  let cs := pyOrNat chunk_size CHUNK_SIZE
  let o := pyOrNat overlap CHUNK_OVERLAP
  let words := pySplit text
  chunkLoop words cs o (words.length + 1) 0 []

/-! ## Data model (src/rag/vector_store.py) -/

/-- An embedding vector (NumPy float row modelled over `Int`). -/
def Vec : Type := List Int

instance : DecidableEq Vec := by unfold Vec; infer_instance

instance : Repr Vec := by unfold Vec; infer_instance

/-- The external sentence-transformer capability (`self.model.encode` on one
text); a batch encode is its map over the list of texts. -/
def Embed : Type := String → Vec

/-- A chunk record as consumed by the vector store: a Python dict whose keys
relevant to the retrieval core are `text`, `unit` and `bloom_level`
(`dict.get` of a missing key is `none`). -/
structure Chunk where
  text : Option String := none
  unit : Option String := none
  bloom_level : Option String := none
deriving Repr, DecidableEq

/-- One element of the list returned by `RAGVectorStore.search`: a copy of the
chunk dict with the `distance` key added (the `score` key is the fixed
function `1.0 / (1.0 + distance)` of this distance). -/
structure SearchResult where
  chunk : Chunk
  distance : Int
deriving Repr, DecidableEq

/-- The mutable state of a `RAGVectorStore`: `self.index` (the FAISS index,
as its list of stored vector rows, `None` before build/load), `self.chunks`
and `self.dimension`. -/
structure Store where
  index : Option (List Vec) := none
  chunks : List Chunk := []
  dimension : Option Nat := none
deriving Repr, DecidableEq

/-- A freshly constructed `RAGVectorStore()`. -/
def emptyStore : Store := {}

/-! ## build_index (src/rag/vector_store.py, lines 38-75) -/

/-- The list-comprehension `[chunk.get("text", "") for chunk in chunks if
chunk.get("text")]`: keep the chunks whose `text` value is truthy, in order,
and take their texts. -/
def textsOf (chunks : List Chunk) : List String :=
  (chunks.filter (fun c => pyTruthy c.text)).map (fun c => pyGetStr c.text)

/-- `RAGVectorStore.build_index(chunks)` as a state transformer, faithful to
the source order of effects: reject an empty list, assign `self.chunks`,
extract the truthy texts, reject if none, encode the texts in one batch and
install the FAISS index (its dimension is the row width). -/
def build_index (embed : Embed) (st : Store) (chunks : List Chunk) :
    Store × Except String Unit :=
  if chunks = [] then (st, .error "No chunks provided for indexing")
  else
    let st1 : Store := { st with chunks := chunks }
    let texts := textsOf chunks
    if texts = [] then (st1, .error "No valid text chunks found")
    else
      let embeddings := texts.map embed
      ({ st1 with index := some embeddings,
                  dimension := some ((embeddings.headD []).length) },
       .ok ())

/-! ## search (src/rag/vector_store.py, lines 120-149) -/

/-- Squared Euclidean distance, the metric of `faiss.IndexFlatL2`. -/
def sqDist (u v : Vec) : Int :=
  (List.zipWith (fun a b => (a - b) * (a - b)) u v).sum

/-- Insert a `(row, distance)` pair into a distance-sorted list, after any
pair of equal distance (stable). -/
def insertByDist (a : Nat × Int) : List (Nat × Int) → List (Nat × Int)
  | [] => [a]
  | b :: bs => if a.2 < b.2 then a :: b :: bs else b :: insertByDist a bs

/-- Stable insertion sort by distance. -/
def sortByDist : List (Nat × Int) → List (Nat × Int)
  | [] => []
  | a :: as => insertByDist a (sortByDist as)

/-- All index rows paired with their distance to the query vector, sorted
ascending by distance.  `index.search(q, k)` returns the first `k` of these
(rows beyond `ntotal` are padded with index `-1`, which the caller's
`0 <= idx` guard drops again; the model omits the padding). -/
def rankAll (xs : List Vec) (qv : Vec) : List (Nat × Int) :=
  sortByDist (xs.enum.map (fun p => (p.1, sqDist qv p.2)))

/-- The result loop of `search`: take the `top_k` nearest rows, keep those
with `0 <= idx < len(self.chunks)`, and emit the chunk copies with their
distances. -/
def searchHits (st : Store) (xs : List Vec) (qv : Vec) (top_k : Nat) :
    List SearchResult :=
  (((rankAll xs qv).take top_k).filter
      (fun p => decide (p.1 < st.chunks.length))).map
    (fun p => { chunk := st.chunks.getD p.1 {}, distance := p.2 })

/-- `RAGVectorStore.search(query, top_k)`: raise if the index is not
built/loaded, else encode the query and return the nearest chunks. -/
def search (embed : Embed) (st : Store) (query : String) (top_k : Nat) :
    Except String (List SearchResult) :=
  match st.index with
  | none => .error "Index not loaded. Load or build index first."
  | some xs => .ok (searchHits st xs (embed query) top_k)

/-! ## Persistence (src/rag/vector_store.py, lines 77-118) -/

/-- Content of one file on disk: a serialized FAISS index, a pickled chunk
list, or bytes that deserialize as neither. -/
inductive FileData where
  | indexFile (vecs : List Vec) : FileData
  | chunksFile (cs : List Chunk) : FileData
  | corrupt : FileData
deriving Repr, DecidableEq

/-- The filesystem: a map from paths to optional file contents. -/
def FS : Type := String → Option FileData

/-- Writing one file. -/
def fsWrite (fs : FS) (p : String) (d : FileData) : FS :=
  fun q => if q = p then some d else fs q

/-- `RAGVectorStore.save_index` over already-resolved paths (the Python
`index_path or RAG_INDEX_PATH` defaulting is applied by callers): refuse if
no index is built, else write the index artifact and then the chunks
artifact. -/
def save_index (fs : FS) (st : Store) (index_path chunks_path : String) :
    Except String FS :=
  match st.index with
  | none => .error "No index to save. Build index first."
  | some vs =>
    .ok (fsWrite (fsWrite fs index_path (.indexFile vs)) chunks_path
          (.chunksFile st.chunks))

/-- Errors of `load_index`: `FileNotFoundError` for an absent artifact, or a
deserialization failure propagated from `faiss.read_index` / `pickle.load`. -/
inductive LoadError where
  | fileNotFound (path : String) : LoadError
  | deserError : LoadError
deriving Repr, DecidableEq

/-- `RAGVectorStore.load_index` over already-resolved paths, in source order:
check existence of both files (`FileNotFoundError`), read the index (setting
`self.index` and `self.dimension`), then unpickle the chunks.  No consistency
check between the two artifacts is performed. -/
def load_index (fs : FS) (st : Store) (index_path chunks_path : String) :
    Except LoadError Store :=
  match fs index_path with
  | none => .error (.fileNotFound index_path)
  | some fi =>
    match fs chunks_path with
    | none => .error (.fileNotFound chunks_path)
    | some fc =>
      match fi with
      | .indexFile vs =>
        match fc with
        | .chunksFile cs =>
          .ok { st with index := some vs,
                        dimension := some ((vs.headD []).length),
                        chunks := cs }
        | _ => .error .deserError
      | _ => .error .deserError

/-! ## Retriever (src/rag/retriever.py) -/

/-- `RAGRetriever._load_store`: if both artifact files exist, try to load
them into a fresh store, swallowing any error (`self.store = None`);
otherwise leave `self.store = None`.  The resolved constructor paths are
non-empty, so the inner `or`-defaulting of `load_index` is the identity. -/
def loadStore (fs : FS) (ip cp : String) : Option Store :=
  if (fs ip).isSome && (fs cp).isSome then
    match load_index fs emptyStore ip cp with
    | .ok st => some st
    | .error _ => none
  else none

/-- The state of a `RAGRetriever`. -/
structure Retriever where
  index_path : String
  chunks_path : String
  store : Option Store
deriving Repr, DecidableEq

/-- `RAGRetriever.__init__(index_path, chunks_path)`: resolve the paths with
Python `or`-defaulting, then `_load_store`. -/
def mkRetriever (fs : FS) (index_path chunks_path : Option String) : Retriever :=
  let ip := pyOrStr index_path RAG_INDEX_PATH
  let cp := pyOrStr chunks_path RAG_CHUNKS_PATH
  { index_path := ip, chunks_path := cp, store := loadStore fs ip cp }

/-- `RAGRetriever.is_ready()`. -/
def is_ready (r : Retriever) : Bool := r.store.isSome

/-- Python `needle.lower()`. -/
def pyLower (s : String) : String := String.mk (s.data.map Char.toLower)

/-- Does `needle` start `hay`? (helper for Python `in` on strings). -/
def startsWithL : List Char → List Char → Bool
  | [], _ => true
  | _ :: _, [] => false
  | a :: as, b :: bs => decide (a = b) && startsWithL as bs

/-- Python `needle in hay` for strings on the character lists: some tail of
`hay` starts with `needle`. -/
def containsSub (needle : List Char) : List Char → Bool
  | [] => startsWithL needle []
  | c :: t => startsWithL needle (c :: t) || containsSub needle t

/-- Python substring test `a in b`. -/
def pyIn (a b : String) : Bool := containsSub a.data b.data

/-- `RAGRetriever.retrieve(query, top_k, unit_filter, bloom_filter)`:
return `[]` when no store is loaded; resolve `top_k` with Python
`or`-defaulting to `TOP_K`; over-fetch `top_k * 2` results from the store;
apply the truthy filters (`unit_filter` as a case-insensitive substring test
on `unit`, `bloom_filter` as equality with `bloom_level`); truncate to
`top_k`.  An exception from `search` would propagate (`.error`). -/
def retrieve (embed : Embed) (r : Retriever) (query : String)
    (top_k : Option Nat) (unit_filter bloom_filter : Option String) :
    Except String (List SearchResult) :=
  match r.store with
  | none => .ok []
  | some st =>
    let k := pyOrNat top_k TOP_K
    match search embed st query (k * 2) with
    | .error e => .error e
    | .ok results =>
      let results1 :=
        if pyTruthy unit_filter then
          results.filter (fun res =>
            pyIn (pyLower (pyGetStr unit_filter)) (pyLower (pyGetStr res.chunk.unit)))
        else results
      let results2 :=
        if pyTruthy bloom_filter then
          results1.filter (fun res => res.chunk.bloom_level == bloom_filter)
        else results1
      .ok (results2.take k)

/-! ## Lemmas about the chunker -/

/-- A string built from a non-empty character list is non-empty. -/
lemma stringMk_ne_empty (l : List Char) (h : l ≠ []) : String.mk l ≠ "" := by
  intro he
  exact h (congrArg String.data he)

/-- Every word produced by `splitWordsAux` (with a whitespace-free
accumulator) is non-empty and whitespace-free. -/
lemma splitWordsAux_clean :
    ∀ (l acc : List Char), (∀ c ∈ acc, c.isWhitespace = false) →
      ∀ w ∈ splitWordsAux l acc,
        w ≠ "" ∧ ∀ c ∈ w.data, c.isWhitespace = false := by
  intro l
  induction l with
  | nil =>
    intro acc hacc w hw
    cases acc with
    | nil => simp [splitWordsAux] at hw
    | cons a as =>
      simp only [splitWordsAux, List.mem_singleton] at hw
      subst hw
      refine ⟨stringMk_ne_empty _ (by simp), ?_⟩
      intro c hc
      simp only [List.mem_reverse] at hc
      exact hacc c hc
  | cons c cs ih =>
    intro acc hacc w hw
    by_cases hws : c.isWhitespace
    · cases acc with
      | nil =>
        simp only [splitWordsAux, hws, if_true] at hw
        exact ih [] (by simp) w hw
      | cons a as =>
        simp only [splitWordsAux, hws, if_true] at hw
        rcases List.mem_cons.mp hw with h | h
        · subst h
          refine ⟨stringMk_ne_empty _ (by simp), ?_⟩
          intro d hd
          simp only [List.mem_reverse] at hd
          exact hacc d hd
        · exact ih [] (by simp) w h
    · simp only [splitWordsAux, hws, if_false] at hw
      refine ih (c :: acc) ?_ w hw
      intro d hd
      rcases List.mem_cons.mp hd with h | h
      · subst h; exact Bool.eq_false_iff.mpr hws
      · exact hacc d h

/-- Every word of `pySplit s` is non-empty and whitespace-free. -/
lemma pySplit_clean (s : String) :
    ∀ w ∈ pySplit s, w ≠ "" ∧ ∀ c ∈ w.data, c.isWhitespace = false :=
  splitWordsAux_clean s.data [] (by simp)

/-- A space-join whose first word is non-empty and whitespace-free has truthy
`strip()`. -/
lemma pyStripTruthy_join (w : String) (rest : List String) (hw : w ≠ "")
    (hclean : ∀ c ∈ w.data, c.isWhitespace = false) :
    pyStripTruthy (pyJoin " " (w :: rest)) = true := by
  have hdata : w.data ≠ [] := by
    intro h
    exact hw (by cases w; simpa using congrArg String.mk h)
  obtain ⟨c0, cs0, hc⟩ := List.exists_cons_of_ne_nil hdata
  have hc0 : c0 ∈ w.data := by rw [hc]; exact List.mem_cons_self _ _
  have hc0w : (!c0.isWhitespace) = true := by
    simp [hclean c0 hc0]
  cases rest with
  | nil =>
    simp only [pyJoin, pyStripTruthy]
    exact List.any_eq_true.mpr ⟨c0, hc0, hc0w⟩
  | cons r rs =>
    simp only [pyJoin, pyStripTruthy, String.data_append, List.any_append,
      List.any_eq_true, Bool.or_eq_true]
    exact Or.inl (Or.inl ⟨c0, hc0, hc0w⟩)

/-- A word window starting inside the word list is a non-empty sublist of it:
`words[start : start + cs]` has a first word taken from `words`. -/
lemma pySlice_window (words : List String) (start cs : Nat)
    (h : start < words.length) (hcs : 1 ≤ cs) :
    ∃ w rest, pySlice words (start : Int) ((start : Int) + (cs : Int)) = w :: rest ∧
      w ∈ words := by
  have ha2 : (if (start : Int) < 0 then
      max ((words.length : Int) + (start : Int)) 0
      else min (start : Int) (words.length : Int)).toNat = start := by
    rw [if_neg (by omega)]
    omega
  have hb2 : (if (start : Int) + (cs : Int) < 0 then
      max ((words.length : Int) + ((start : Int) + (cs : Int))) 0
      else min ((start : Int) + (cs : Int)) (words.length : Int)).toNat =
      min (start + cs) words.length := by
    rw [if_neg (by omega)]
    omega
  have hres : pySlice words (start : Int) ((start : Int) + (cs : Int)) =
      (words.take (min (start + cs) words.length)).drop start := by
    simp only [pySlice]
    rw [ha2, hb2]
  have hlen : 0 < ((words.take (min (start + cs) words.length)).drop start).length := by
    rw [List.length_drop, List.length_take]
    omega
  have hne : (words.take (min (start + cs) words.length)).drop start ≠ [] :=
    List.ne_nil_of_length_pos hlen
  obtain ⟨w, rest, hw⟩ := List.exists_cons_of_ne_nil hne
  refine ⟨w, rest, by rw [hres, hw], ?_⟩
  have : w ∈ (words.take (min (start + cs) words.length)).drop start := by
    rw [hw]; exact List.mem_cons_self _ _
  exact List.take_subset _ _ (List.drop_subset _ _ this)

/-- Over a clean word list, each loop iteration appends exactly one chunk. -/
lemma chunkAppend_length_clean (words : List String) (cs : Nat) (start : Nat)
    (acc : List RawChunk)
    (hclean : ∀ w ∈ words, w ≠ "" ∧ ∀ c ∈ w.data, c.isWhitespace = false)
    (h : start < words.length) (hcs : 1 ≤ cs) :
    (chunkAppend words cs (start : Int) acc).length = acc.length + 1 := by
  obtain ⟨w, rest, heq, hmem⟩ := pySlice_window words start cs h hcs
  unfold chunkAppend
  rw [heq, pyStripTruthy_join w rest (hclean w hmem).1 (hclean w hmem).2]
  simp

/-- Counting the loop iterations: from a position `start < W` with positive
step `cs - o`, the loop terminates within `W - start` steps of fuel and has
appended exactly `(W - start - 1) / (cs - o) + 1` chunks. -/
lemma chunkLoop_count (words : List String) (cs o : Nat)
    (hclean : ∀ w ∈ words, w ≠ "" ∧ ∀ c ∈ w.data, c.isWhitespace = false)
    (ho : o < cs) :
    ∀ (fuel start : Nat) (acc : List RawChunk), start < words.length →
      words.length - start ≤ fuel →
      ∃ l, chunkLoop words cs o fuel (start : Int) acc = some l ∧
        l.length = acc.length + ((words.length - start - 1) / (cs - o) + 1) := by
  intro fuel
  induction fuel with
  | zero =>
    intro start acc h1 h2
    exact absurd h2 (by omega)
  | succ n ih =>
    intro start acc h1 h2
    simp only [chunkLoop]
    rw [if_pos (show (start : Int) < (words.length : Int) by omega)]
    by_cases hbr : (start : Int) + (cs : Int) - (o : Int) ≥ (words.length : Int)
    · rw [if_pos hbr]
      refine ⟨_, rfl, ?_⟩
      rw [chunkAppend_length_clean words cs start acc hclean h1 (by omega)]
      have hlt : words.length - start - 1 < cs - o := by omega
      rw [Nat.div_eq_of_lt hlt]
    · rw [if_neg hbr]
      have hstep : (start : Int) + (cs : Int) - (o : Int) =
          ((start + (cs - o) : Nat) : Int) := by
        push_cast
        omega
      rw [hstep]
      obtain ⟨l, hl, hlen⟩ := ih (start + (cs - o)) (chunkAppend words cs start acc)
        (by omega) (by omega)
      refine ⟨l, hl, ?_⟩
      rw [hlen, chunkAppend_length_clean words cs start acc hclean h1 (by omega)]
      have heq : words.length - start - 1 =
          (words.length - (start + (cs - o)) - 1) + (cs - o) := by omega
      rw [heq, Nat.add_div_right _ (show 0 < cs - o by omega)]
      omega

/-- With a non-positive step (`overlap >= chunk_size`) and a non-empty word
list, the loop never exits: every fuel bound is exhausted. -/
lemma chunkLoop_nonterm (words : List String) (cs o : Nat) (ho : cs ≤ o)
    (hw : words ≠ []) :
    ∀ (fuel : Nat) (start : Int), start ≤ 0 → ∀ acc,
      chunkLoop words cs o fuel start acc = none := by
  intro fuel
  induction fuel with
  | zero => intro start _ acc; rfl
  | succ n ih =>
    intro start hstart acc
    have hW : 0 < words.length := List.length_pos.mpr hw
    simp only [chunkLoop]
    rw [if_pos (show start < (words.length : Int) by omega),
      if_neg (show ¬ (start + (cs : Int) - (o : Int) ≥ (words.length : Int)) by omega)]
    exact ih _ (by omega) _

/-! ## Lemmas about sorting and search -/

lemma insertByDist_length (a : Nat × Int) (l : List (Nat × Int)) :
    (insertByDist a l).length = l.length + 1 := by
  induction l with
  | nil => rfl
  | cons b bs ih =>
    simp only [insertByDist]
    split
    · simp
    · simp [ih]

lemma sortByDist_length (l : List (Nat × Int)) :
    (sortByDist l).length = l.length := by
  induction l with
  | nil => rfl
  | cons a as ih => simp [sortByDist, insertByDist_length, ih]

lemma mem_insertByDist {x a : Nat × Int} {l : List (Nat × Int)}
    (h : x ∈ insertByDist a l) : x = a ∨ x ∈ l := by
  induction l with
  | nil =>
    simp only [insertByDist, List.mem_singleton] at h
    exact Or.inl h
  | cons b bs ih =>
    simp only [insertByDist] at h
    split at h
    · exact List.mem_cons.mp h
    · rcases List.mem_cons.mp h with h | h
      · exact Or.inr (h ▸ List.mem_cons_self _ _)
      · rcases ih h with h | h
        · exact Or.inl h
        · exact Or.inr (List.mem_cons_of_mem _ h)

lemma mem_sortByDist {x : Nat × Int} {l : List (Nat × Int)}
    (h : x ∈ sortByDist l) : x ∈ l := by
  induction l with
  | nil => simp [sortByDist] at h
  | cons a as ih =>
    simp only [sortByDist] at h
    rcases mem_insertByDist h with h | h
    · exact h ▸ List.mem_cons_self _ _
    · exact List.mem_cons_of_mem _ (ih h)

lemma pairwise_insertByDist {a : Nat × Int} {l : List (Nat × Int)}
    (h : l.Pairwise (fun x y => x.2 ≤ y.2)) :
    (insertByDist a l).Pairwise (fun x y => x.2 ≤ y.2) := by
  induction l with
  | nil => simp [insertByDist]
  | cons b bs ih =>
    rcases List.pairwise_cons.mp h with ⟨hb, hbs⟩
    simp only [insertByDist]
    split
    · rename_i hlt
      refine List.pairwise_cons.mpr ⟨?_, h⟩
      intro y hy
      rcases List.mem_cons.mp hy with h | h
      · exact h ▸ le_of_lt hlt
      · exact (le_of_lt hlt).trans (hb y h)
    · rename_i hge
      refine List.pairwise_cons.mpr ⟨?_, ih hbs⟩
      intro y hy
      rcases mem_insertByDist hy with h | h
      · subst h; omega
      · exact hb y h

lemma pairwise_sortByDist (l : List (Nat × Int)) :
    (sortByDist l).Pairwise (fun x y => x.2 ≤ y.2) := by
  induction l with
  | nil => simp [sortByDist]
  | cons a as ih => exact pairwise_insertByDist ih

lemma enumFrom_length {α : Type} (n : Nat) (l : List α) :
    (l.enumFrom n).length = l.length := by
  induction l generalizing n with
  | nil => rfl
  | cons a as ih => simp [ih]

lemma fst_lt_of_mem_enumFrom {α : Type} {p : Nat × α} :
    ∀ {n : Nat} {l : List α}, p ∈ l.enumFrom n → p.1 < n + l.length := by
  intro n l
  induction l generalizing n with
  | nil => intro h; simp at h
  | cons a as ih =>
    intro h
    rcases List.mem_cons.mp h with h | h
    · subst h; simp
    · have := ih h
      simp only [List.length_cons]
      omega

lemma rankAll_length (xs : List Vec) (qv : Vec) :
    (rankAll xs qv).length = xs.length := by
  simp [rankAll, sortByDist_length, List.enum, enumFrom_length]

lemma rankAll_fst_lt {xs : List Vec} {qv : Vec} {p : Nat × Int}
    (h : p ∈ rankAll xs qv) : p.1 < xs.length := by
  have h1 := mem_sortByDist h
  simp only [List.mem_map] at h1
  obtain ⟨q, hq, rfl⟩ := h1
  have := fst_lt_of_mem_enumFrom (l := xs) (n := 0) hq
  simpa using this

lemma rankAll_pairwise (xs : List Vec) (qv : Vec) :
    (rankAll xs qv).Pairwise (fun x y => x.2 ≤ y.2) :=
  pairwise_sortByDist _

/-- `searchHits` only reads the chunk list of the store. -/
lemma searchHits_eq_of_chunks_eq (s1 s2 : Store) (h : s1.chunks = s2.chunks)
    (xs : List Vec) (qv : Vec) (tk : Nat) :
    searchHits s1 xs qv tk = searchHits s2 xs qv tk := by
  simp [searchHits, h]

/-- Growing `top_k` only appends results: the hits for a smaller `top_k` are
a prefix of the hits for a larger one, and there are at most `m` of them. -/
lemma searchHits_mono (st : Store) (xs : List Vec) (qv : Vec) {m n : Nat}
    (h : m ≤ n) :
    ∃ tail, searchHits st xs qv n = searchHits st xs qv m ++ tail ∧
      (searchHits st xs qv m).length ≤ m := by
  have htake : (rankAll xs qv).take n =
      (rankAll xs qv).take m ++ ((rankAll xs qv).take n).drop m := by
    conv_lhs => rw [← List.take_append_drop m ((rankAll xs qv).take n)]
    rw [List.take_take, Nat.min_eq_left h]
  refine ⟨((((rankAll xs qv).take n).drop m).filter
      (fun p => decide (p.1 < st.chunks.length))).map
      (fun p => { chunk := st.chunks.getD p.1 {}, distance := p.2 }), ?_, ?_⟩
  · unfold searchHits
    conv_lhs => rw [htake]
    rw [List.filter_append, List.map_append]
  · calc (searchHits st xs qv m).length
        ≤ ((rankAll xs qv).take m).length := by
          unfold searchHits
          rw [List.length_map]
          exact (List.filter_sublist _).length_le
      _ ≤ m := List.length_take_le _ _

/-! ## Lemmas about persistence and the retriever -/

/-- `load_index` succeeds exactly when both files hold artifacts of the
expected kinds, with no consistency condition between them. -/
lemma load_index_ok_iff (fs : FS) (st : Store) (ip cp : String) (st2 : Store) :
    load_index fs st ip cp = .ok st2 ↔
      ∃ vs cs, fs ip = some (.indexFile vs) ∧ fs cp = some (.chunksFile cs) ∧
        st2 = { st with index := some vs,
                        dimension := some ((vs.headD []).length),
                        chunks := cs } := by
  constructor
  · intro h
    unfold load_index at h
    rcases hfi : fs ip with _ | d
    · rw [hfi] at h; simp at h
    · rw [hfi] at h
      rcases hfc : fs cp with _ | d'
      · rw [hfc] at h; simp at h
      · rw [hfc] at h
        rcases d with vs | cs | _
        · rcases d' with vs' | cs' | _
          · simp at h
          · simp only [Except.ok.injEq] at h
            exact ⟨vs, cs', rfl, rfl, h.symm⟩
          · simp at h
        · simp at h
        · simp at h
  · rintro ⟨vs, cs, h1, h2, h3⟩
    simp [load_index, h1, h2, h3]

/-- A store held by a constructed retriever always has its index set. -/
lemma mkRetriever_store_index {fs : FS} {ipo cpo : Option String} {st : Store}
    (h : (mkRetriever fs ipo cpo).store = some st) : ∃ xs, st.index = some xs := by
  simp only [mkRetriever, loadStore] at h
  split at h
  · split at h
    · rename_i s heq
      obtain ⟨vs, cs, _, _, hst⟩ := (load_index_ok_iff _ _ _ _ _).mp heq
      obtain rfl : s = st := by injection h
      exact ⟨vs, by rw [hst]⟩
    · exact absurd h (by simp)
  · exact absurd h (by simp)

/-- Python `"" in s` is always true. -/
lemma pyIn_empty (s : String) : pyIn "" s = true := by
  show containsSub [] s.data = true
  cases s.data with
  | nil => rfl
  | cons c t => rfl

/-! ## Concrete fixtures for witnesses and counterexamples -/

/-- A concrete embedding capability: the text length, as a 1-dimensional
vector. -/
def embedC : Embed := fun s => [(s.length : Int)]

/-- The degenerate build input for C2/C7: an empty-text chunk followed by a
non-empty one; `build_index` accepts it. -/
def badChunks : List Chunk := [{ text := some "" }, { text := some "ab" }]

/-- The store produced by building `badChunks`. -/
def stBad : Store := (build_index embedC emptyStore badChunks).1

/-- A filesystem whose two artifacts have mismatched row counts (2 vectors,
1 chunk). -/
def fsMismatch : FS := fun p =>
  if p = "i.faiss" then some (.indexFile [[1], [2]])
  else if p = "c.pkl" then some (.chunksFile [{ text := some "x" }])
  else none

/-- A consistent filesystem with one stored chunk, at the default paths. -/
def fsGood : FS := fun p =>
  if p = RAG_INDEX_PATH then some (.indexFile [[1]])
  else if p = RAG_CHUNKS_PATH then
    some (.chunksFile [{ text := some "x", unit := some "Unit-1" }])
  else none

/-! ## Claim theorems -/

/-- C1: `chunk_text` performs no validation of its parameters: called with
`overlap >= chunk_size` (here `chunk_size = overlap = 1`) on a text with at
least one word, the word-window loop never exits — no fuel bound suffices —
so the call loops forever instead of raising a configuration error. -/
theorem c1_overlap_ge_size_loops_not_raises :
    (∀ fuel : Nat, chunkLoop (pySplit "a b") 1 1 fuel 0 [] = none) ∧
    chunk_text "a b" (some 1) (some 1) = none := by
  constructor
  · intro fuel
    exact chunkLoop_nonterm (pySplit "a b") 1 1 (le_refl 1) (by decide) fuel 0
      (le_refl 0) []
  · exact chunkLoop_nonterm (pySplit "a b") 1 1 (le_refl 1) (by decide) _ 0
      (le_refl 0) []

/-- The chunk-count formula exactly as claim C4 states it:
`max 1 (ceil((W - O) / (S - O)))`, in natural ceiling-division form. -/
def specClaimCount (W S O : Nat) : Nat :=
  max 1 ((W - O + (S - O) - 1) / (S - O))

/-- C4 counterexample: for a 10-word text with `chunk_size = 5` and
`overlap = 2`, `chunk_text` produces 4 non-empty chunks, while the claimed
formula `max 1 (ceil((W - O) / (S - O)))` gives 3. -/
theorem c4_count_formula_cex :
    (chunk_text "a b c d e f g h i j" (some 5) (some 2)).map List.length =
      some 4 ∧
    specClaimCount (pySplit "a b c d e f g h i j").length 5 2 = 3 ∧
    (4 : Nat) ≠ 3 := by
  refine ⟨by decide, by decide, by decide⟩

/-- C4 amended: for a text with `W > 0` whitespace-split words and explicitly
passed parameters `1 ≤ O < S` (an explicit `O = 0` would fall back to the
configured default by Python `or`-defaulting), `chunk_text` terminates and
produces exactly `ceil(W / (S - O)) = (W - 1) / (S - O) + 1` non-empty
chunks. -/
theorem c4_chunk_count_amended (text : String) (cs o : Nat) (ho1 : 1 ≤ o)
    (ho2 : o < cs) (hW : 0 < (pySplit text).length) :
    ∃ l, chunk_text text (some cs) (some o) = some l ∧
      l.length = ((pySplit text).length - 1) / (cs - o) + 1 := by
  have hcs : pyOrNat (some cs) CHUNK_SIZE = cs := by
    simp only [pyOrNat]
    rw [if_neg (by omega)]
  have hoo : pyOrNat (some o) CHUNK_OVERLAP = o := by
    simp only [pyOrNat]
    rw [if_neg (by omega)]
  obtain ⟨l, hl, hlen⟩ := chunkLoop_count (pySplit text) cs o (pySplit_clean text)
    ho2 ((pySplit text).length + 1) 0 [] hW (by omega)
  refine ⟨l, ?_, by simpa using hlen⟩
  simp only [chunk_text, hcs, hoo]
  simpa using hl

/-- C4 amended, witness: `"a b c"` with `chunk_size = 2`, `overlap = 1`
yields `ceil(3 / 1) = 3` chunks. -/
theorem c4_chunk_count_amended_witness :
    (1 : Nat) ≤ 1 ∧ 1 < 2 ∧ 0 < (pySplit "a b c").length ∧
    ∃ l, chunk_text "a b c" (some 2) (some 1) = some l ∧ l.length = 3 := by
  refine ⟨le_refl 1, by omega, by decide, ?_⟩
  obtain ⟨l, h1, h2⟩ := c4_chunk_count_amended "a b c" 2 1 (le_refl 1)
    (by omega) (by decide)
  refine ⟨l, h1, ?_⟩
  rw [h2]
  decide

/-- C2: `build_index` accepts `badChunks` (one empty-text chunk, one chunk
with text `"ab"`), stores both chunks, but embeds only the non-empty text:
the index holds 1 vector against 2 stored chunks, and the single vector row
is the embedding of `chunks[1]`, not of `chunks[0]` — the claimed count and
row-alignment invariant fails for inputs containing empty or missing
texts. -/
theorem c2_build_misaligned_on_empty_text :
    (build_index embedC emptyStore badChunks).2 = Except.ok () ∧
    (build_index embedC emptyStore badChunks).1.chunks.length = 2 ∧
    (build_index embedC emptyStore badChunks).1.index = some [embedC "ab"] ∧
    [embedC "ab"].length ≠ 2 ∧
    embedC "ab" ≠ embedC (pyGetStr (badChunks.headD {}).text) := by
  refine ⟨rfl, by decide, by decide, by decide, by decide⟩

/-- C9: a non-empty build input all of whose texts are empty or missing is
rejected with the no-valid-text error, after `self.chunks` has already been
replaced by the rejected input and while `self.index` stays unset, so a
subsequent `search` still raises the not-built error. -/
theorem c9_failed_build_not_atomic (embed : Embed) (chunks : List Chunk)
    (hne : chunks ≠ []) (hall : ∀ c ∈ chunks, pyTruthy c.text = false) :
    build_index embed emptyStore chunks =
      ({ emptyStore with chunks := chunks },
        .error "No valid text chunks found") ∧
    ∀ q tk, search embed { emptyStore with chunks := chunks } q tk =
      .error "Index not loaded. Load or build index first." := by
  have htexts : textsOf chunks = [] := by
    unfold textsOf
    rw [List.filter_eq_nil_iff.mpr (fun c hc => by simp [hall c hc])]
    rfl
  constructor
  · simp only [build_index, if_neg hne, htexts, if_true]
  · intro q tk
    rfl

/-- C9 witness: building `[{"unit": none}]` (no text key) over the fresh
store fails with the no-valid-text error, leaves the chunk list replaced and
the index unset, and search still raises. -/
theorem c9_failed_build_not_atomic_witness :
    ([({ text := none } : Chunk)] ≠ []) ∧
    build_index embedC emptyStore [{ text := none }] =
      ({ emptyStore with chunks := [{ text := none }] },
        .error "No valid text chunks found") ∧
    search embedC { emptyStore with chunks := [({ text := none } : Chunk)] }
      "q" 3 = .error "Index not loaded. Load or build index first." := by
  have h := c9_failed_build_not_atomic embedC [{ text := none }] (by decide)
    (by decide)
  exact ⟨by decide, h.1, h.2 "q" 3⟩

/-- C3 counterexample: loading two artifacts whose row counts disagree
(2 vectors against 1 chunk) completes successfully — no corrupt-artifact
error is raised on a count mismatch. -/
theorem c3_mismatch_loads_cex :
    load_index fsMismatch emptyStore "i.faiss" "c.pkl" =
      .ok { index := some [[1], [2]],
            chunks := [{ text := some "x" }],
            dimension := some 1 } ∧
    ([[1], [2]] : List Vec).length ≠
      ([{ text := some "x" }] : List Chunk).length := by
  exact ⟨rfl, by decide⟩

/-- C3 amended: `load_index` raises the missing-file error when either
artifact is absent (index path checked first) and a deserialization error
when either present artifact is not of its expected kind; it succeeds exactly
when both artifacts deserialize, with no row-count consistency check — a
mismatched pair loads successfully. -/
theorem c3_load_error_characterization (fs : FS) (st : Store) (ip cp : String) :
    (fs ip = none → load_index fs st ip cp = .error (.fileNotFound ip)) ∧
    (∀ d, fs ip = some d → fs cp = none →
      load_index fs st ip cp = .error (.fileNotFound cp)) ∧
    (∀ d d', fs ip = some d → fs cp = some d' →
      ((∀ vs, d ≠ .indexFile vs) ∨ (∀ cs, d' ≠ .chunksFile cs)) →
      load_index fs st ip cp = .error .deserError) ∧
    (∀ st2, load_index fs st ip cp = .ok st2 ↔
      ∃ vs cs, fs ip = some (.indexFile vs) ∧ fs cp = some (.chunksFile cs) ∧
        st2 = { st with index := some vs,
                        dimension := some ((vs.headD []).length),
                        chunks := cs }) := by
  refine ⟨?_, ?_, ?_, fun st2 => load_index_ok_iff fs st ip cp st2⟩
  · intro h
    simp [load_index, h]
  · intro d h1 h2
    simp [load_index, h1, h2]
  · intro d d' h1 h2 h3
    rcases d with vs | cs | _
    · rcases h3 with h3 | h3
      · exact absurd rfl (h3 vs)
      · rcases d' with vs' | cs' | _
        · simp [load_index, h1, h2]
        · exact absurd rfl (h3 cs')
        · simp [load_index, h1, h2]
    · simp [load_index, h1, h2]
    · simp [load_index, h1, h2]

/-- C3 amended, witness: on a filesystem holding only a valid index artifact
at `"i.faiss"`, loading with a missing chunks file raises the missing-file
error for the chunks path, and the success characterization rules out
`.ok`. -/
theorem c3_load_error_characterization_witness :
    (fun p => if p = "i.faiss" then some (FileData.indexFile [[1]]) else none :
      FS) "c.pkl" = none ∧
    load_index (fun p => if p = "i.faiss" then some (.indexFile [[1]]) else none)
      emptyStore "i.faiss" "c.pkl" = .error (.fileNotFound "c.pkl") := by
  refine ⟨rfl, ?_⟩
  exact (c3_load_error_characterization
    (fun p => if p = "i.faiss" then some (.indexFile [[1]]) else none)
    emptyStore "i.faiss" "c.pkl").2.1 (.indexFile [[1]]) rfl rfl

/-- C6: saving a successfully built store (index present) to two distinct
paths and loading those artifacts into a fresh store yields the identical
chunk list and the identical index rows, hence bit-for-bit identical search
results (same order, same distances) for every query. -/
theorem c6_save_load_roundtrip (embed : Embed) (fs : FS) (st : Store)
    (vs : List Vec) (ip cp : String) (hidx : st.index = some vs)
    (hne : ip ≠ cp) :
    ∃ fs2 st2, save_index fs st ip cp = .ok fs2 ∧
      load_index fs2 emptyStore ip cp = .ok st2 ∧
      st2.chunks = st.chunks ∧ st2.index = st.index ∧
      ∀ q tk, search embed st2 q tk = search embed st q tk := by
  have hfs2ip : (fsWrite (fsWrite fs ip (.indexFile vs)) cp
      (.chunksFile st.chunks)) ip = some (.indexFile vs) := by
    simp [fsWrite, hne]
  have hfs2cp : (fsWrite (fsWrite fs ip (.indexFile vs)) cp
      (.chunksFile st.chunks)) cp = some (.chunksFile st.chunks) := by
    simp [fsWrite]
  have hsave : save_index fs st ip cp =
      .ok (fsWrite (fsWrite fs ip (.indexFile vs)) cp (.chunksFile st.chunks)) := by
    simp [save_index, hidx]
  have hload : load_index (fsWrite (fsWrite fs ip (.indexFile vs)) cp
      (.chunksFile st.chunks)) emptyStore ip cp =
      .ok ⟨some vs, st.chunks, some ((vs.headD []).length)⟩ := by
    simp [load_index, hfs2ip, hfs2cp]
  refine ⟨_, _, hsave, hload, rfl, hidx.symm, ?_⟩
  intro q tk
  simp only [search, hidx]
  exact congrArg _ (searchHits_eq_of_chunks_eq _ _ rfl vs (embed q) tk)

/-- The store used by the C6 witness. -/
def stGood : Store := ⟨some [[1]], [{ text := some "x" }], some 1⟩

/-- C6 witness: a one-chunk, one-vector store round-trips through
`"i.faiss"` / `"c.pkl"` on the empty filesystem. -/
theorem c6_save_load_roundtrip_witness :
    stGood.index = some [[1]] ∧
    ("i.faiss" : String) ≠ "c.pkl" ∧
    ∃ fs2 st2,
      save_index (fun _ => none) stGood "i.faiss" "c.pkl" = .ok fs2 ∧
      load_index fs2 emptyStore "i.faiss" "c.pkl" = .ok st2 ∧
      st2.chunks = stGood.chunks ∧
      st2.index = stGood.index ∧
      ∀ q tk, search embedC st2 q tk = search embedC stGood q tk := by
  obtain ⟨fs2, st2, h1, h2, h3, h4, h5⟩ := c6_save_load_roundtrip embedC
    (fun _ => none) stGood [[1]] "i.faiss" "c.pkl" rfl (by decide)
  exact ⟨rfl, by decide, fs2, st2, h1, h2, h3, h4, h5⟩

/-- C8: a retriever constructed over explicit paths of which at least one
does not exist ends with no store; `is_ready()` is `false` and every
`retrieve` call returns `.ok []` — the missing index is degraded to empty
results, not an exception (the model's constructor, `is_ready` and
`retrieve` are total functions and `retrieve` returns `.ok`). -/
theorem c8_missing_artifacts_degrade (fs : FS) (ip cp : String)
    (hip : ip ≠ "") (hcp : cp ≠ "") (h : fs ip = none ∨ fs cp = none) :
    (mkRetriever fs (some ip) (some cp)).store = none ∧
    is_ready (mkRetriever fs (some ip) (some cp)) = false ∧
    ∀ embed q tk u b,
      retrieve embed (mkRetriever fs (some ip) (some cp)) q tk u b = .ok [] := by
  have hipr : pyOrStr (some ip) RAG_INDEX_PATH = ip := by simp [pyOrStr, hip]
  have hcpr : pyOrStr (some cp) RAG_CHUNKS_PATH = cp := by simp [pyOrStr, hcp]
  have hstore : (mkRetriever fs (some ip) (some cp)).store = none := by
    simp only [mkRetriever, hipr, hcpr, loadStore]
    rcases h with h | h <;> simp [h]
  refine ⟨hstore, by simp [is_ready, hstore], ?_⟩
  intro embed q tk u b
  simp only [retrieve, hstore]

/-- C8 witness: over the empty filesystem with paths `"a"`, `"b"`, the
retriever is not ready and retrieves nothing. -/
theorem c8_missing_artifacts_degrade_witness :
    ("a" : String) ≠ "" ∧ ("b" : String) ≠ "" ∧
    ((fun _ => none : FS) "a" = none ∨ (fun _ => none : FS) "b" = none) ∧
    (mkRetriever (fun _ => none) (some "a") (some "b")).store = none ∧
    is_ready (mkRetriever (fun _ => none) (some "a") (some "b")) = false ∧
    retrieve embedC (mkRetriever (fun _ => none) (some "a") (some "b"))
      "q" none none none = .ok [] := by
  have h := c8_missing_artifacts_degrade (fun _ => none) "a" "b" (by decide)
    (by decide) (Or.inl rfl)
  exact ⟨by decide, by decide, Or.inl rfl, h.1, h.2.1, h.2.2 embedC "q" none none none⟩

/-- C7 counterexample: on the reachable store built from `badChunks` (2
stored chunks, 1 index row), `search` with `top_k = 5` returns 1 result, not
`min 5 2 = 2`: the result count is clamped to the number of index rows, not
to the number of stored chunks. -/
theorem c7_clamp_to_chunks_cex :
    stBad.index = some [[2]] ∧ stBad.chunks.length = 2 ∧
    search embedC stBad "q" 5 =
      .ok [{ chunk := { text := some "" }, distance := 1 }] ∧
    (1 : Nat) ≠ min 5 stBad.chunks.length := by
  refine ⟨by decide, by decide, rfl, by decide⟩

/-- C7 amended: `search` raises the not-built error before a successful
build/load; on a store whose index rows are aligned with its chunk list
(`len(rows) = len(chunks)`, which holds except after the degenerate build of
C2), it returns results sorted ascending by distance whose count is `top_k`
clamped to the number of stored chunks. -/
theorem c7_search_clamped_sorted (embed : Embed) (st : Store) (q : String)
    (tk : Nat) :
    (st.index = none →
      search embed st q tk = .error "Index not loaded. Load or build index first.") ∧
    (∀ xs, st.index = some xs → xs.length = st.chunks.length →
      ∃ l, search embed st q tk = .ok l ∧ l.length = min tk st.chunks.length ∧
        l.Pairwise (fun a b => a.distance ≤ b.distance)) := by
  constructor
  · intro h
    simp [search, h]
  · intro xs hx hal
    refine ⟨searchHits st xs (embed q) tk, by simp [search, hx], ?_, ?_⟩
    · have hfilter : ((rankAll xs (embed q)).take tk).filter
          (fun p => decide (p.1 < st.chunks.length)) =
          (rankAll xs (embed q)).take tk := by
        apply List.filter_eq_self.mpr
        intro p hp
        have hlt : p.1 < xs.length := rankAll_fst_lt (List.take_subset _ _ hp)
        simp only [decide_eq_true_eq]
        omega
      unfold searchHits
      rw [hfilter, List.length_map, List.length_take, rankAll_length, hal]
    · unfold searchHits
      rw [List.pairwise_map]
      exact List.Pairwise.sublist
        ((List.filter_sublist _).trans (List.take_sublist _ _))
        (rankAll_pairwise xs (embed q))

/-- C7 amended, witness: on the aligned one-chunk store, `search` with
`top_k = 5` returns `min 5 1 = 1` sorted result. -/
theorem c7_search_clamped_sorted_witness :
    stGood.index = some [[1]] ∧
    ([[1]] : List Vec).length = stGood.chunks.length ∧
    ∃ l, search embedC stGood "q" 5 = .ok l ∧
      l.length = min 5 stGood.chunks.length ∧
      l.Pairwise (fun a b => a.distance ≤ b.distance) := by
  refine ⟨rfl, by decide, ?_⟩
  exact (c7_search_clamped_sorted embedC stGood "q" 5).2 [[1]] rfl (by decide)

/-- C5: for a constructed ready retriever, positive `k` and any unit-filter
string `U`, the filtered `retrieve(q, k, unit_filter = U)` returns only
results whose `unit` contains `U` case-insensitively, returns at most `k`
results, and is an order-preserving sublist of the unfiltered
`retrieve(q, 2k)` result — filtering never re-sorts. -/
theorem c5_unit_filter_monotone (embed : Embed) (fs : FS)
    (ipo cpo : Option String) (st : Store)
    (hst : (mkRetriever fs ipo cpo).store = some st) (q U : String) (k : Nat)
    (hk : 0 < k) :
    ∃ l l2,
      retrieve embed (mkRetriever fs ipo cpo) q (some k) (some U) none = .ok l ∧
      retrieve embed (mkRetriever fs ipo cpo) q (some (2 * k)) none none = .ok l2 ∧
      (∀ res ∈ l, pyIn (pyLower U) (pyLower (pyGetStr res.chunk.unit)) = true) ∧
      l.length ≤ k ∧ l.Sublist l2 := by
  obtain ⟨xs, hix⟩ := mkRetriever_store_index hst
  have hk1 : pyOrNat (some k) TOP_K = k := by
    simp only [pyOrNat]
    rw [if_neg (by omega)]
  have hk2 : pyOrNat (some (2 * k)) TOP_K = 2 * k := by
    simp only [pyOrNat]
    rw [if_neg (by omega)]
  have hsearch1 : search embed st q (k * 2) =
      .ok (searchHits st xs (embed q) (k * 2)) := by
    simp [search, hix]
  have hsearch2 : search embed st q (2 * k * 2) =
      .ok (searchHits st xs (embed q) (2 * k * 2)) := by
    simp [search, hix]
  have hret2 : retrieve embed (mkRetriever fs ipo cpo) q (some (2 * k)) none none =
      .ok ((searchHits st xs (embed q) (2 * k * 2)).take (2 * k)) := by
    simp only [retrieve, hst, hk2, hsearch2]
    rfl
  obtain ⟨tail, htail, hblen⟩ := searchHits_mono st xs (embed q)
    (show k * 2 ≤ 2 * k * 2 by omega)
  have hl2 : (searchHits st xs (embed q) (2 * k * 2)).take (2 * k) =
      searchHits st xs (embed q) (k * 2) ++
        tail.take (2 * k - (searchHits st xs (embed q) (k * 2)).length) := by
    rw [htail, List.take_append_eq_append_take, List.take_of_length_le (by omega)]
  by_cases hU : U = ""
  · subst hU
    have hret1 : retrieve embed (mkRetriever fs ipo cpo) q (some k) (some "") none
        = .ok ((searchHits st xs (embed q) (k * 2)).take k) := by
      simp only [retrieve, hst, hk1, hsearch1]
      rfl
    refine ⟨_, _, hret1, hret2, ?_, List.length_take_le _ _, ?_⟩
    · intro res _
      exact pyIn_empty _
    · rw [hl2]
      exact (List.take_sublist _ _).trans (List.sublist_append_left _ _)
  · have hUt : pyTruthy (some U) = true := by
      simp [pyTruthy, hU]
    have hret1 : retrieve embed (mkRetriever fs ipo cpo) q (some k) (some U) none
        = .ok (((searchHits st xs (embed q) (k * 2)).filter (fun res =>
            pyIn (pyLower (pyGetStr (some U))) (pyLower (pyGetStr res.chunk.unit)))).take k) := by
      simp only [retrieve, hst, hk1, hsearch1, hUt]
      rfl
    refine ⟨_, _, hret1, hret2, ?_, List.length_take_le _ _, ?_⟩
    · intro res hres
      exact (List.mem_filter.mp (List.take_subset _ _ hres)).2
    · rw [hl2]
      exact ((List.take_sublist _ _).trans (List.filter_sublist _)).trans
        (List.sublist_append_left _ _)

/-- C5 witness: over `fsGood` with `k = 1`, `U = "nit-1"` (a substring of
the stored unit `"Unit-1"` up to case), the filtered and unfiltered calls
behave as claimed. -/
theorem c5_unit_filter_monotone_witness :
    (mkRetriever fsGood none none).store =
      some ⟨some [[1]], [{ text := some "x", unit := some "Unit-1" }], some 1⟩ ∧
    (0 : Nat) < 1 ∧
    ∃ l l2,
      retrieve embedC (mkRetriever fsGood none none) "q" (some 1)
        (some "nit-1") none = .ok l ∧
      retrieve embedC (mkRetriever fsGood none none) "q" (some (2 * 1))
        none none = .ok l2 ∧
      (∀ res ∈ l, pyIn (pyLower "nit-1") (pyLower (pyGetStr res.chunk.unit)) = true) ∧
      l.length ≤ 1 ∧ l.Sublist l2 := by
  refine ⟨by decide, by omega, ?_⟩
  exact c5_unit_filter_monotone embedC fsGood none none
    ⟨some [[1]], [{ text := some "x", unit := some "Unit-1" }], some 1⟩
    (by decide) "q" "nit-1" 1 (by omega)

/-- C10: for a constructed ready retriever, `retrieve(q, top_k = 0)` is not
capped at 0 results: Python `or`-defaulting treats the explicit 0 like an
unspecified `top_k`, so the call behaves exactly like `top_k = TOP_K` (the
configured default, 3) and returns at most 3 results. -/
theorem c10_topk_zero_uses_default (embed : Embed) (fs : FS)
    (ipo cpo : Option String) (st : Store)
    (hst : (mkRetriever fs ipo cpo).store = some st) (q : String)
    (u b : Option String) :
    retrieve embed (mkRetriever fs ipo cpo) q (some 0) u b =
      retrieve embed (mkRetriever fs ipo cpo) q (some TOP_K) u b ∧
    ∃ l, retrieve embed (mkRetriever fs ipo cpo) q (some 0) u b = .ok l ∧
      l.length ≤ TOP_K := by
  obtain ⟨xs, hix⟩ := mkRetriever_store_index hst
  have h0 : pyOrNat (some 0) TOP_K = TOP_K := rfl
  have h3 : pyOrNat (some TOP_K) TOP_K = TOP_K := rfl
  constructor
  · simp only [retrieve, hst, h0, h3]
  · have hs : search embed st q (TOP_K * 2) =
        .ok (searchHits st xs (embed q) (TOP_K * 2)) := by
      simp [search, hix]
    simp only [retrieve, hst, h0, hs]
    refine ⟨_, rfl, List.length_take_le _ _⟩

/-- C10 witness: over `fsGood`, `retrieve` with `top_k = 0` equals the call
with `top_k = 3` and returns at most 3 results. -/
theorem c10_topk_zero_uses_default_witness :
    (mkRetriever fsGood none none).store =
      some ⟨some [[1]], [{ text := some "x", unit := some "Unit-1" }], some 1⟩ ∧
    retrieve embedC (mkRetriever fsGood none none) "q" (some 0) none none =
      retrieve embedC (mkRetriever fsGood none none) "q" (some TOP_K) none none ∧
    ∃ l, retrieve embedC (mkRetriever fsGood none none) "q" (some 0) none none =
      .ok l ∧ l.length ≤ TOP_K := by
  have h := c10_topk_zero_uses_default embedC fsGood none none
    ⟨some [[1]], [{ text := some "x", unit := some "Unit-1" }], some 1⟩
    (by decide) "q" none none
  exact ⟨by decide, h.1, h.2⟩

end RAG
